import Mathlib

/-!
Verification development for a small in-memory key-value server
(`src/app/main.go`).  The Go code is shallowly embedded: Go maps become
association lists, `time.Time` and `time.Duration` become `Int`
(nanoseconds), the byte stream of a connection becomes `List Char`, and
fallible operations return `Except`.  Runtime panics of the Go code
(index out of range, negative slice capacity) are modelled by an explicit
result constructor.
-/

/-- Lookup in an association list, modelling a read of a Go map. -/
def mapGet {β : Type} : List (String × β) → String → Option β
  | [], _ => none
  | p :: rest, k => if p.1 = k then some p.2 else mapGet rest k

/-- Deletion from an association list, modelling `delete(m, k)`. -/
def mapDel {β : Type} : List (String × β) → String → List (String × β)
  | [], _ => []
  | p :: rest, k => if p.1 = k then mapDel rest k else p :: mapDel rest k

/-- Update of an association list, modelling `m[k] = v`. -/
def mapSet {β : Type} (m : List (String × β)) (k : String) (v : β) :
    List (String × β) :=
  (k, v) :: mapDel m k

/-- The store state of `Kv` in `src/app/main.go`: scalar table `data`,
expiration index `exp` (absolute instants, nanoseconds), list table
`lists`.  The mutex is irrelevant to the sequential semantics. -/
structure Kv where
  data : List (String × String)
  exp : List (String × Int)
  lists : List (String × List String)
deriving DecidableEq, Repr

/-- `NewKv` from the source: all three tables empty. -/
def NewKv : Kv := { data := [], exp := [], lists := [] }

/-- `(*Kv).SetWithTTL` from the source: always writes `data[key]`; a
positive ttl records `now + ttl` in `exp`, otherwise the `exp` entry is
deleted. -/
def Kv.SetWithTTL (k : Kv) (key value : String) (now ttl : Int) : Kv :=
  { k with
    data := mapSet k.data key value,
    exp := if ttl > 0 then mapSet k.exp key (now + ttl) else mapDel k.exp key }

/-- `(*Kv).Set` from the source: `SetWithTTL` with zero ttl. -/
def Kv.Set (k : Kv) (key value : String) (now : Int) : Kv :=
  k.SetWithTTL key value now 0

/-- `(*Kv).Get` from the source.  `time.Now().After(expTime)` is the
strict comparison `now > expTime`; on expiry both the `data` and the
`exp` entries are deleted and the read misses. -/
def Kv.Get (k : Kv) (key : String) (now : Int) : Option String × Kv :=
  match mapGet k.exp key with
  | some expTime =>
    if now > expTime then
      (none, { k with data := mapDel k.data key, exp := mapDel k.exp key })
    else
      (mapGet k.data key, k)
  | none => (mapGet k.data key, k)

/-- `(*Kv).RPush` from the source: appends to `lists[key]` (a missing key
reads as the empty list) and returns the new length.  `data` and `exp`
are untouched. -/
def Kv.RPush (k : Kv) (key : String) (values : List String) : Nat × Kv :=
  let newList := (match mapGet k.lists key with
    | some l => l
    | none => []) ++ values
  (newList.length, { k with lists := mapSet k.lists key newList })

/-- One iteration of the sweeper loop in `main`: for the visited `exp`
entry, if `now.After(exp)` holds, delete the key from both tables. -/
def sweepStep (now : Int) (acc : Kv) (p : String × Int) : Kv :=
  if now > p.2 then
    { acc with data := mapDel acc.data p.1, exp := mapDel acc.exp p.1 }
  else acc

/-- One tick of the expiry sweeper goroutine in `main`: iterate over the
entries of the expiration index, deleting expired keys from both
tables. -/
def Kv.sweep (kv : Kv) (now : Int) : Kv :=
  kv.exp.foldl (sweepStep now) kv

/-- ASCII uppercasing, modelling `strings.ToUpper` on the ASCII command
and option names this server handles. -/
def toUpper (s : String) : String :=
  String.mk (s.data.map Char.toUpper)

/-- Digit accumulation for `strconv.Atoi` (overflow ignored: the claims
use small numbers). -/
def parseDigitsAux : List Char → Nat → Option Nat
  | [], acc => some acc
  | c :: cs, acc =>
    if c.isDigit then parseDigitsAux cs (acc * 10 + (c.toNat - 48)) else none

/-- A nonempty all-digit run, as `strconv.Atoi` requires after the sign. -/
def parseDigits : List Char → Option Nat
  | [] => none
  | c :: cs => parseDigitsAux (c :: cs) 0

/-- `strconv.Atoi` over a character list: optional single sign, then a
nonempty digit run; anything else is an error. -/
def atoiChars (cs : List Char) : Except String Int :=
  match cs with
  | '+' :: rest =>
    match parseDigits rest with
    | some n => .ok (Int.ofNat n)
    | none => .error "invalid syntax"
  | '-' :: rest =>
    match parseDigits rest with
    | some n => .ok (-(Int.ofNat n))
    | none => .error "invalid syntax"
  | _ =>
    match parseDigits cs with
    | some n => .ok (Int.ofNat n)
    | none => .error "invalid syntax"

/-- `strconv.Atoi` on a string. -/
def atoiStr (s : String) : Except String Int :=
  atoiChars s.toList

/-- The reply values Go handlers actually produce (`RespValue` shapes of
the source: `nil`, `SimpleString`, `BulkString`, `integer`), plus
`other` standing for any dynamic value outside those shapes, which the
encoder's `default` branch rejects. -/
inductive RespValue where
  | nilV : RespValue
  | simpleString : String → RespValue
  | bulkString : String → RespValue
  | integer : Int → RespValue
  | other : RespValue
deriving DecidableEq, Repr

/-- `writeResp` from the source: the four known shapes encode to their
wire form; anything else is the `unsupported RESP type` error.  String
length is character count (the server's strings are ASCII). -/
def writeResp : RespValue → Except String String
  | .nilV => .ok "$-1\r\n"
  | .simpleString s => .ok ("+" ++ s ++ "\r\n")
  | .bulkString s => .ok ("$" ++ toString s.length ++ "\r\n" ++ s ++ "\r\n")
  | .integer n => .ok (":" ++ toString n ++ "\r\n")
  | .other => .error "unsupported RESP type"

/-- A command handler: argument list, store, current time; returns the
reply (or a command error) and the possibly-updated store. -/
abbrev HandlerFn := List String → Kv → Int → Except String RespValue × Kv

namespace Srv

/-- Handler `ping` from the source. -/
def ping : HandlerFn := fun args kv _now =>
  match args with
  | [] => (.ok (.simpleString "PONG"), kv)
  | a :: _ => (.ok (.bulkString a), kv)

/-- Handler `echo` from the source. -/
def echo : HandlerFn := fun args kv _now =>
  match args with
  | [a] => (.ok (.bulkString a), kv)
  | _ => (.error "ECHO requires exactly one argument", kv)

/-- Handler `get` from the source: a store miss yields the `nil` reply
(null bulk string). -/
def get : HandlerFn := fun args kv now =>
  match args with
  | [key] =>
    match Kv.Get kv key now with
    | (some v, kv2) => (.ok (.bulkString v), kv2)
    | (none, kv2) => (.ok .nilV, kv2)
  | _ => (.error "GET requires exactly one argument", kv)

/-- The option-scanning loop of handler `set`: pairs of `PX ms` /
`EX seconds` (case-insensitive names) starting at argument index 2; a
lone trailing token or an unrecognized name is `invalid SET option`.
Durations are nanoseconds, as `time.Duration`. -/
def parseSetOptions : List String → Int → Except String Int
  | [], ttl => .ok ttl
  | [_], _ => .error "invalid SET option"
  | opt :: v :: rest, _ =>
    if toUpper opt = "PX" then
      match atoiStr v with
      | .ok ms => parseSetOptions rest (ms * 1000000)
      | .error _ => .error "invalid PX value"
    else if toUpper opt = "EX" then
      match atoiStr v with
      | .ok s => parseSetOptions rest (s * 1000000000)
      | .error _ => .error "invalid EX value"
    else .error "invalid SET option"

/-- Handler `set` from the source: arity check, then the option scan,
and only on full success the single `SetWithTTL` store call. -/
def set : HandlerFn := fun args kv now =>
  match args with
  | key :: value :: opts =>
    match parseSetOptions opts 0 with
    | .ok ttl => (.ok (.simpleString "OK"), kv.SetWithTTL key value now ttl)
    | .error e => (.error e, kv)
  | _ => (.error "SET requires atleast two arguments", kv)

/-- Handler `rpush` from the source. -/
def rpush : HandlerFn := fun args kv _now =>
  match args with
  | key :: v :: vs =>
    match Kv.RPush kv key (v :: vs) with
    | (n, kv2) => (.ok (.integer (Int.ofNat n)), kv2)
  | _ => (.error "RPUSH requires at least two arguments", kv)

/-- The `handlers` map of the source: exactly the five registered
command names. -/
def handlersLookup (cmd : String) : Option HandlerFn :=
  if cmd = "PING" then some ping
  else if cmd = "ECHO" then some echo
  else if cmd = "SET" then some set
  else if cmd = "GET" then some get
  else if cmd = "RPUSH" then some rpush
  else none

/-- One decoded command through the loop body of `handleClient`: empty
command → no reply; unknown name → the literal error line; otherwise the
handler runs and its reply (or error) is encoded.  The returned string
is the wire bytes written for this command, if any. -/
def dispatchStep (args : List String) (kv : Kv) (now : Int) :
    Option String × Kv :=
  match args with
  | [] => (none, kv)
  | name :: rest =>
    match handlersLookup (toUpper name) with
    | none => (some "-Err unknown command\r\n", kv)
    | some h =>
      match h rest kv now with
      | (.error msg, kv2) => (some ("-Err " ++ msg ++ "\r\n"), kv2)
      | (.ok v, kv2) =>
        match writeResp v with
        | .ok w => (some w, kv2)
        | .error _ => (none, kv2)

end Srv

/-- The spec's `Reply` tagged union: the five reply variants. -/
inductive Reply where
  | simple : String → Reply
  | bulk : String → Reply
  | null : Reply
  | integer : Int → Reply
  | error : String → Reply
deriving DecidableEq, Repr

/-- The complete reply encoding the server performs: the first four
variants go through `writeResp`; the `error` variant is the line
`handleClient` formats itself. -/
def encodeReply : Reply → Except String String
  | .simple s => writeResp (.simpleString s)
  | .bulk s => writeResp (.bulkString s)
  | .null => writeResp .nilV
  | .integer n => writeResp (.integer n)
  | .error msg => .ok ("-Err " ++ msg ++ "\r\n")

/-- Outcome of a decoding step: a value, a returned error (I/O or
framing), or a Go runtime panic. -/
inductive ResR (α : Type) where
  | ok : α → ResR α
  | err : String → ResR α
  | crash : String → ResR α
deriving DecidableEq, Repr

/-- The prefix of the stream up to and including the first newline, and
the remainder: the split `bufio.Reader.ReadBytes` performs.  `none` when
no newline is buffered (the reader would return an I/O error). -/
def takeLine : List Char → Option (List Char × List Char)
  | [] => none
  | c :: cs =>
    if c = '\n' then some ([c], cs)
    else
      match takeLine cs with
      | none => none
      | some (b, rest) => some (c :: b, rest)

/-- `readLineCRLF` from the source: read through the first newline,
require the byte before it to be a carriage return, and return the line
without its CRLF plus the unread remainder. -/
def readLineCRLF (input : List Char) : Except String (List Char × List Char) :=
  match takeLine input with
  | none => .error "EOF"
  | some (b, rest) =>
    if b.length < 2 then .error "line does not end with CRLF"
    else if b.get? (b.length - 2) = some '\r' then
      .ok (b.take (b.length - 2), rest)
    else .error "line does not end with CRLF"

/-- The body of the element loop of `readRespArray`: one bulk string.
An empty header line makes `line[0]` an out-of-range index (a Go
panic).  A non-`$` header or a payload whose declared end is not CRLF is
a returned framing error.  A negative declared length consumes nothing
and decodes to the empty string. -/
def readOneBulk (input : List Char) : ResR (String × List Char) :=
  match readLineCRLF input with
  | .error e => .err e
  | .ok (line, rest) =>
    match line with
    | [] => .crash "index out of range"
    | c :: cs =>
      if c = '$' then
        match atoiChars cs with
        | .error _ => .err "invalid bulk string length"
        | .ok len =>
          if len < 0 then .ok ("", rest)
          else
            let n := len.toNat + 2
            if rest.length < n then .err "EOF"
            else
              let buf := rest.take n
              if buf.drop (n - 2) = ['\r', '\n'] then
                .ok (String.mk (buf.take len.toNat), rest.drop n)
              else .err "bulk string does not end with CRLF"
      else .err "expected bulk string"

/-- The element loop of `readRespArray`, reading `count` bulk strings. -/
def readElements (input : List Char) (acc : List String) :
    Nat → ResR (List String × List Char)
  | 0 => .ok (acc, input)
  | n + 1 =>
    match readOneBulk input with
    | .err m => .err m
    | .crash m => .crash m
    | .ok (s, rest) => readElements rest (acc ++ [s]) n

/-- `strings.Fields` on ASCII text: whitespace-separated words. -/
def fields (cs : List Char) : List String :=
  let step := fun (c : Char) (st : List Char × List String) =>
    if c.isWhitespace then
      match st.1 with
      | [] => ([], st.2)
      | w => ([], String.mk w :: st.2)
    else (c :: st.1, st.2)
  match cs.foldr step ([], []) with
  | ([], acc) => acc
  | (w, acc) => String.mk w :: acc

/-- `readRespArray` from the source: array mode when the first buffered
byte is `*` (header count via `strconv.Atoi`; a negative count is the
invalid capacity of `make([]string, 0, count)`, a Go panic), otherwise
the inline single-line mode. -/
def readRespArray (input : List Char) : ResR (List String) :=
  match input with
  | [] => .err "EOF"
  | c :: _ =>
    if c = '*' then
      match readLineCRLF input with
      | .error e => .err e
      | .ok (header, rest) =>
        match atoiChars (header.drop 1) with
        | .error _ => .err "invalid array length"
        | .ok count =>
          if count < 0 then .crash "makeslice: cap out of range"
          else
            match readElements rest [] count.toNat with
            | .err m => .err m
            | .crash m => .crash m
            | .ok (args, _) => .ok args
    else
      match readLineCRLF input with
      | .error e => .err e
      | .ok (line, _) => .ok (fields line)

theorem mapGet_mapDel_self {β : Type} (m : List (String × β)) (k : String) :
    mapGet (mapDel m k) k = none := by
  induction m with
  | nil => rfl
  | cons p rest ih =>
    by_cases hp : p.1 = k
    · simp [mapDel, hp, ih]
    · simp [mapDel, mapGet, hp, ih]

theorem mapGet_mapDel_ne {β : Type} (m : List (String × β)) (k k' : String)
    (h : k' ≠ k) : mapGet (mapDel m k) k' = mapGet m k' := by
  induction m with
  | nil => rfl
  | cons p rest ih =>
    by_cases hp : p.1 = k
    · have hpk : p.1 ≠ k' := by rw [hp]; exact fun hh => h hh.symm
      simp [mapDel, mapGet, hp, hpk, ih, Ne.symm h]
    · by_cases hq : p.1 = k'
      · simp [mapDel, mapGet, hp, hq, h]
      · simp [mapDel, mapGet, hp, hq, ih]

theorem mapGet_mapSet_self {β : Type} (m : List (String × β)) (k : String)
    (v : β) : mapGet (mapSet m k v) k = some v := by
  simp [mapSet, mapGet]

theorem mapGet_mapSet_ne {β : Type} (m : List (String × β)) (k k' : String)
    (v : β) (h : k' ≠ k) : mapGet (mapSet m k v) k' = mapGet m k' := by
  have : k ≠ k' := fun hh => h hh.symm
  simp [mapSet, mapGet, this, mapGet_mapDel_ne m k k' h]

theorem mem_mapDel {β : Type} (m : List (String × β)) (k : String)
    (p : String × β) : p ∈ mapDel m k ↔ p ∈ m ∧ p.1 ≠ k := by
  induction m with
  | nil => simp [mapDel]
  | cons q rest ih =>
    by_cases hq : q.1 = k
    · simp only [mapDel, if_pos hq, ih, List.mem_cons]
      constructor
      · exact fun ⟨hm, hne⟩ => ⟨Or.inr hm, hne⟩
      · rintro ⟨hm | hm, hne⟩
        · exact absurd (hm ▸ hq) hne
        · exact ⟨hm, hne⟩
    · simp only [mapDel, if_neg hq, List.mem_cons, ih]
      constructor
      · rintro (hp | ⟨hm, hne⟩)
        · exact ⟨Or.inl hp, hp ▸ hq⟩
        · exact ⟨Or.inr hm, hne⟩
      · rintro ⟨hp | hm, hne⟩
        · exact Or.inl hp
        · exact Or.inr ⟨hm, hne⟩

theorem mapGet_mem {β : Type} (m : List (String × β)) (k : String) (v : β)
    (h : mapGet m k = some v) : (k, v) ∈ m := by
  induction m with
  | nil => simp [mapGet] at h
  | cons p rest ih =>
    obtain ⟨a, b⟩ := p
    by_cases ha : a = k
    · simp only [mapGet, ha, if_pos rfl] at h
      obtain rfl : b = v := Option.some_injective _ h
      simp [ha]
    · simp only [mapGet, if_neg ha] at h
      exact List.mem_cons_of_mem _ (ih h)

/-- C1 counterexample: after `rpush k [a]` then `setScalar k v`, the key
still holds the old list alongside the new scalar — the scalar write did
not replace the list, and both values are observable. -/
theorem claim_c1_counterexample :
    (Kv.Get (Kv.SetWithTTL (Kv.RPush NewKv "k" ["a"]).2 "k" "v" 0 0) "k" 0).1
      = some "v"
    ∧ mapGet (Kv.SetWithTTL (Kv.RPush NewKv "k" ["a"]).2 "k" "v" 0 0).lists "k"
      = some ["a"] := by
  exact ⟨rfl, rfl⟩

/-- C1 amended: the scalar and list tables are disjoint: `SetWithTTL`
never touches the list table, and `RPush` never touches the scalar table
or the expiration index, so a key can hold a scalar and a list at the
same time and neither write replaces the other. -/
theorem claim_c1_amended :
    (∀ (kv : Kv) (key value : String) (now ttl : Int),
      (kv.SetWithTTL key value now ttl).lists = kv.lists)
    ∧ (∀ (kv : Kv) (key : String) (values : List String),
      (kv.RPush key values).2.data = kv.data
      ∧ (kv.RPush key values).2.exp = kv.exp) := by
  exact ⟨fun kv key value now ttl => rfl, fun kv key values => ⟨rfl, rfl⟩⟩

/-- C2 counterexample: `LPUSH` is not among the registered handler
names; dispatching it yields the unknown-command error reply, contrary
to the claim that all seven listed names have handlers. -/
theorem claim_c2_counterexample :
    Srv.handlersLookup (toUpper "LPUSH") = none
    ∧ Srv.dispatchStep ["LPUSH", "mylist", "a"] NewKv 0
      = (some "-Err unknown command\r\n", NewKv) := by
  exact ⟨rfl, rfl⟩

/-- C2 amended: dispatch recognizes exactly the five registered names
PING, ECHO, SET, GET, RPUSH (after uppercasing the received name); every
name whose uppercasing is any other string — including LPUSH and
LRANGE — gets the `unknown command` error reply. -/
theorem claim_c2_amended :
    (∀ cmd : String, (Srv.handlersLookup cmd).isSome = true ↔
      (cmd = "PING" ∨ cmd = "ECHO" ∨ cmd = "SET" ∨ cmd = "GET"
        ∨ cmd = "RPUSH"))
    ∧ (∀ (name : String) (rest : List String) (kv : Kv) (now : Int),
      Srv.handlersLookup (toUpper name) = none →
      Srv.dispatchStep (name :: rest) kv now
        = (some "-Err unknown command\r\n", kv)) := by
  constructor
  · intro cmd
    unfold Srv.handlersLookup
    split_ifs with h1 h2 h3 h4 h5 <;> simp_all
  · intro name rest kv now h
    simp [Srv.dispatchStep, h]

/-- Witness for C2 amended at the concrete name FOO. -/
theorem claim_c2_amended_witness :
    Srv.dispatchStep ["FOO"] NewKv 0 = (some "-Err unknown command\r\n", NewKv) :=
  claim_c2_amended.2 "FOO" [] NewKv 0 rfl

/-- C4: when the SET option scan fails — on any error at all, and in
particular on an unrecognized option name or an unparseable PX value —
the command errors and the store is returned unchanged: validation
precedes the single store mutation. -/
theorem claim_c4 :
    (∀ (args : List String) (kv : Kv) (now : Int) (e : String),
      (Srv.set args kv now).1 = Except.error e → (Srv.set args kv now).2 = kv)
    ∧ (∀ (key value opt : String) (rest : List String) (kv : Kv) (now : Int),
      toUpper opt ≠ "PX" → toUpper opt ≠ "EX" →
      Srv.set (key :: value :: opt :: rest) kv now
        = (Except.error "invalid SET option", kv))
    ∧ (∀ (key value v : String) (kv : Kv) (now : Int) (e : String),
      atoiStr v = Except.error e →
      Srv.set (key :: value :: "PX" :: [v]) kv now
        = (Except.error "invalid PX value", kv)) := by
  refine ⟨?_, ?_, ?_⟩
  · intro args kv now e h
    rcases args with _ | ⟨a, _ | ⟨b, opts⟩⟩
    · rfl
    · rfl
    · simp only [Srv.set] at h ⊢
      cases hp : Srv.parseSetOptions opts 0 with
      | ok ttl => rw [hp] at h; simp at h
      | error e2 => rfl
  · intro key value opt rest kv now hp hx
    rcases rest with _ | ⟨r, rs⟩
    · simp [Srv.set, Srv.parseSetOptions, hp, hx]
    · simp [Srv.set, Srv.parseSetOptions, hp, hx]
  · intro key value v kv now e h
    have hPX : toUpper "PX" = "PX" := rfl
    simp [Srv.set, Srv.parseSetOptions, hPX, h]

/-- Witness for C4 at concrete inputs: a bogus option name and an
unparseable PX value both error and leave the empty store empty. -/
theorem claim_c4_witness :
    (Srv.set ["k", "v", "XX"] NewKv 0).2 = NewKv
    ∧ Srv.set ["k", "v", "XX"] NewKv 0 = (Except.error "invalid SET option", NewKv)
    ∧ Srv.set ["k", "v", "PX", "abc"] NewKv 0
      = (Except.error "invalid PX value", NewKv) :=
  ⟨claim_c4.1 ["k", "v", "XX"] NewKv 0 "invalid SET option" rfl,
   claim_c4.2.1 "k" "v" "XX" [] NewKv 0 (by decide) (by decide),
   claim_c4.2.2 "k" "v" "abc" NewKv 0 "invalid syntax" rfl⟩

/-- C5: a positive ttl records the absolute instant `now + ttl` in the
expiration index; a non-positive (absent) ttl removes any prior
expiration entry, so after a TTL-less `Set` a `Get` at any later time
still returns the value. -/
theorem claim_c5 (kv : Kv) (key value : String) (now ttl : Int) :
    (ttl > 0 →
      mapGet (kv.SetWithTTL key value now ttl).exp key = some (now + ttl))
    ∧ (ttl ≤ 0 → mapGet (kv.SetWithTTL key value now ttl).exp key = none)
    ∧ (∀ now2 : Int, (Kv.Get (kv.Set key value now) key now2).1 = some value)
    := by
  refine ⟨?_, ?_, ?_⟩
  · intro h
    simp [Kv.SetWithTTL, h, mapGet_mapSet_self]
  · intro h
    have hng : ¬ ttl > 0 := by omega
    simp [Kv.SetWithTTL, hng, mapGet_mapDel_self]
  · intro now2
    have h0 : ¬ (0 : Int) > 0 := by omega
    simp [Kv.Set, Kv.SetWithTTL, h0, Kv.Get, mapGet_mapDel_self,
      mapGet_mapSet_self]

/-- Witness for C5 at concrete inputs. -/
theorem claim_c5_witness :
    mapGet (Kv.SetWithTTL NewKv "k" "v" 10 5).exp "k" = some 15
    ∧ mapGet (Kv.SetWithTTL NewKv "k" "v" 10 0).exp "k" = none
    ∧ (Kv.Get (Kv.Set NewKv "k" "v" 10) "k" 999).1 = some "v" :=
  ⟨(claim_c5 NewKv "k" "v" 10 5).1 (by decide),
   (claim_c5 NewKv "k" "v" 10 0).2.1 (by decide),
   (claim_c5 NewKv "k" "v" 10 0).2.2 999⟩

/-- C7: reply encoding is total over the five Reply variants and
produces exactly the documented wire bytes for each; it never fails on
them (only a value outside these shapes hits the encoder's failing
default branch). -/
theorem claim_c7 :
    (∀ s, encodeReply (Reply.simple s) = Except.ok ("+" ++ s ++ "\r\n"))
    ∧ (∀ s, encodeReply (Reply.bulk s)
      = Except.ok ("$" ++ toString s.length ++ "\r\n" ++ s ++ "\r\n"))
    ∧ encodeReply Reply.null = Except.ok "$-1\r\n"
    ∧ (∀ n, encodeReply (Reply.integer n)
      = Except.ok (":" ++ toString n ++ "\r\n"))
    ∧ (∀ msg, encodeReply (Reply.error msg)
      = Except.ok ("-Err " ++ msg ++ "\r\n"))
    ∧ (∀ r : Reply, ∃ w, encodeReply r = Except.ok w) := by
  refine ⟨fun s => rfl, fun s => rfl, rfl, fun n => rfl, fun msg => rfl, ?_⟩
  intro r
  cases r <;> exact ⟨_, rfl⟩

theorem sweepFold_none (now : Int) (key : String) (l : List (String × Int)) :
    ∀ acc : Kv, mapGet acc.data key = none → mapGet acc.exp key = none →
      mapGet (l.foldl (sweepStep now) acc).data key = none
      ∧ mapGet (l.foldl (sweepStep now) acc).exp key = none := by
  induction l with
  | nil => exact fun acc hd he => ⟨hd, he⟩
  | cons p rest ih =>
    intro acc hd he
    simp only [List.foldl]
    apply ih
    · show mapGet (sweepStep now acc p).data key = none
      unfold sweepStep
      by_cases h : now > p.2
      · simp only [if_pos h]
        by_cases hk : key = p.1
        · subst hk; exact mapGet_mapDel_self _ _
        · rw [mapGet_mapDel_ne _ _ _ hk]; exact hd
      · simp only [if_neg h]; exact hd
    · show mapGet (sweepStep now acc p).exp key = none
      unfold sweepStep
      by_cases h : now > p.2
      · simp only [if_pos h]
        by_cases hk : key = p.1
        · subst hk; exact mapGet_mapDel_self _ _
        · rw [mapGet_mapDel_ne _ _ _ hk]; exact he
      · simp only [if_neg h]; exact he

theorem sweepFold_del (now : Int) (key : String) (t : Int)
    (l : List (String × Int)) :
    ∀ acc : Kv, (key, t) ∈ l → now > t →
      mapGet (l.foldl (sweepStep now) acc).data key = none
      ∧ mapGet (l.foldl (sweepStep now) acc).exp key = none := by
  induction l with
  | nil => intro acc h; simp at h
  | cons p rest ih =>
    intro acc hmem hnow
    rcases List.mem_cons.mp hmem with hp | hp
    · subst hp
      simp only [List.foldl]
      have hstep : sweepStep now acc (key, t)
          = { acc with data := mapDel acc.data key, exp := mapDel acc.exp key }
          := by
        unfold sweepStep
        exact if_pos hnow
      rw [hstep]
      exact sweepFold_none now key rest _ (mapGet_mapDel_self _ _)
        (mapGet_mapDel_self _ _)
    · simp only [List.foldl]
      exact ih _ hp hnow

/-- C3 counterexample: at the exact expiration instant (`instant ≤ now`
with equality) the code's strict `After` comparison keeps the key: `Get`
still returns the value and the sweeper leaves the store untouched, so
the key is not treated as absent and nothing is removed. -/
theorem claim_c3_counterexample :
    (Kv.Get (Kv.SetWithTTL NewKv "k" "v" 0 5) "k" 5).1 = some "v"
    ∧ Kv.sweep (Kv.SetWithTTL NewKv "k" "v" 0 5) 5
      = Kv.SetWithTTL NewKv "k" "v" 0 5 := by
  exact ⟨rfl, rfl⟩

/-- C3 amended: for every key whose recorded expiration instant is
strictly earlier than the current time, `Get` treats it as absent and
deletes it from both tables, and a sweeper tick deletes it from both
tables. -/
theorem claim_c3_amended (kv : Kv) (key : String) (t now : Int)
    (hexp : mapGet kv.exp key = some t) (hlt : t < now) :
    ((kv.Get key now).1 = none
      ∧ mapGet (kv.Get key now).2.data key = none
      ∧ mapGet (kv.Get key now).2.exp key = none)
    ∧ (mapGet (kv.sweep now).data key = none
      ∧ mapGet (kv.sweep now).exp key = none) := by
  constructor
  · have hgt : now > t := hlt
    simp only [Kv.Get, hexp, if_pos hgt]
    exact ⟨trivial, mapGet_mapDel_self _ _, mapGet_mapDel_self _ _⟩
  · simp only [Kv.sweep]
    exact sweepFold_del now key t kv.exp kv (mapGet_mem _ _ _ hexp) hlt

/-- Witness for C3 amended: key with instant 5 read and swept at time 6. -/
theorem claim_c3_amended_witness :
    ((Kv.Get (Kv.SetWithTTL NewKv "k" "v" 0 5) "k" 6).1 = none
      ∧ mapGet (Kv.Get (Kv.SetWithTTL NewKv "k" "v" 0 5) "k" 6).2.data "k"
        = none
      ∧ mapGet (Kv.Get (Kv.SetWithTTL NewKv "k" "v" 0 5) "k" 6).2.exp "k"
        = none)
    ∧ (mapGet ((Kv.SetWithTTL NewKv "k" "v" 0 5).sweep 6).data "k" = none
      ∧ mapGet ((Kv.SetWithTTL NewKv "k" "v" 0 5).sweep 6).exp "k" = none) :=
  claim_c3_amended (Kv.SetWithTTL NewKv "k" "v" 0 5) "k" 5 6 rfl (by decide)

/-- The store operations a claim about reachable states ranges over:
scalar writes, reads (which may lazily expire), list appends, and
sweeper ticks. -/
inductive Op where
  | setScalar : String → String → Int → Int → Op
  | getOp : String → Int → Op
  | rpushOp : String → List String → Op
  | sweepOp : Int → Op

/-- The state effect of one operation. -/
def applyOp (kv : Kv) : Op → Kv
  | .setScalar key value now ttl => kv.SetWithTTL key value now ttl
  | .getOp key now => (kv.Get key now).2
  | .rpushOp key values => (kv.RPush key values).2
  | .sweepOp now => kv.sweep now

/-- Run a sequence of store operations from a starting state. -/
def runOps (kv : Kv) (ops : List Op) : Kv :=
  ops.foldl applyOp kv

/-- The invariant: every key in the expiration index also has an entry
in the scalar value table. -/
def expKeysLive (kv : Kv) : Bool :=
  kv.exp.all (fun p => (mapGet kv.data p.1).isSome)

theorem expKeysLive_iff (kv : Kv) :
    expKeysLive kv = true ↔
      ∀ p ∈ kv.exp, (mapGet kv.data p.1).isSome = true := by
  simp [expKeysLive, List.all_eq_true]

theorem expKeysLive_SetWithTTL (kv : Kv) (key value : String) (now ttl : Int)
    (h : expKeysLive kv = true) :
    expKeysLive (kv.SetWithTTL key value now ttl) = true := by
  rw [expKeysLive_iff] at h ⊢
  intro p hp
  show (mapGet (mapSet kv.data key value) p.1).isSome = true
  by_cases hk : p.1 = key
  · rw [hk, mapGet_mapSet_self]; rfl
  · rw [mapGet_mapSet_ne _ _ _ _ hk]
    have hp2 : p ∈ (if ttl > 0 then mapSet kv.exp key (now + ttl)
        else mapDel kv.exp key) := hp
    by_cases ht : ttl > 0
    · rw [if_pos ht] at hp2
      rcases List.mem_cons.mp hp2 with he | he
      · have : p.1 = key := by rw [he]
        exact absurd this hk
      · exact h p ((mem_mapDel _ _ _).mp he).1
    · rw [if_neg ht] at hp2
      exact h p ((mem_mapDel _ _ _).mp hp2).1

theorem expKeysLive_Get (kv : Kv) (key : String) (now : Int)
    (h : expKeysLive kv = true) : expKeysLive (kv.Get key now).2 = true := by
  rw [expKeysLive_iff] at h ⊢
  unfold Kv.Get
  cases hm : mapGet kv.exp key with
  | none => exact h
  | some expTime =>
    by_cases hn : now > expTime
    · simp only [if_pos hn]
      intro p hp
      have hmem := (mem_mapDel kv.exp key p).mp hp
      show (mapGet (mapDel kv.data key) p.1).isSome = true
      rw [mapGet_mapDel_ne _ _ _ hmem.2]
      exact h p hmem.1
    · simp only [if_neg hn]
      exact h

theorem expKeysLive_RPush (kv : Kv) (key : String) (values : List String)
    (h : expKeysLive kv = true) :
    expKeysLive (kv.RPush key values).2 = true := h

theorem expKeysLive_sweepStep (now : Int) (acc : Kv) (p : String × Int)
    (h : expKeysLive acc = true) :
    expKeysLive (sweepStep now acc p) = true := by
  rw [expKeysLive_iff] at h ⊢
  unfold sweepStep
  by_cases hn : now > p.2
  · simp only [if_pos hn]
    intro q hq
    have hmem := (mem_mapDel acc.exp p.1 q).mp hq
    show (mapGet (mapDel acc.data p.1) q.1).isSome = true
    rw [mapGet_mapDel_ne _ _ _ hmem.2]
    exact h q hmem.1
  · simp only [if_neg hn]
    exact h

theorem expKeysLive_sweepFold (now : Int) (l : List (String × Int)) :
    ∀ acc : Kv, expKeysLive acc = true →
      expKeysLive (l.foldl (sweepStep now) acc) = true := by
  induction l with
  | nil => exact fun acc h => h
  | cons p rest ih =>
    exact fun acc h => ih _ (expKeysLive_sweepStep now acc p h)

theorem expKeysLive_applyOp (kv : Kv) (op : Op)
    (h : expKeysLive kv = true) : expKeysLive (applyOp kv op) = true := by
  cases op with
  | setScalar key value now ttl => exact expKeysLive_SetWithTTL _ _ _ _ _ h
  | getOp key now => exact expKeysLive_Get _ _ _ h
  | rpushOp key values => exact expKeysLive_RPush _ _ _ h
  | sweepOp now => exact expKeysLive_sweepFold now kv.exp kv h

theorem runOps_expKeysLive (ops : List Op) :
    ∀ kv : Kv, expKeysLive kv = true →
      expKeysLive (runOps kv ops) = true := by
  induction ops with
  | nil => exact fun kv h => h
  | cons op rest ih =>
    exact fun kv h => ih _ (expKeysLive_applyOp kv op h)

/-- C8: starting from the empty store, every sequence of store
operations (scalar writes, reads, list appends, sweeper ticks) preserves
the invariant that each key in the expiration index also exists in the
value table. -/
theorem claim_c8 (ops : List Op) : expKeysLive (runOps NewKv ops) = true :=
  runOps_expKeysLive ops NewKv rfl

theorem takeLine_append (hd rest : List Char) (h : '\n' ∉ hd) :
    takeLine (hd ++ '\r' :: '\n' :: rest) = some (hd ++ ['\r', '\n'], rest)
    := by
  induction hd with
  | nil => rfl
  | cons c cs ih =>
    have hc : ¬ c = '\n' := fun hh => h (by simp [hh])
    have hcs : '\n' ∉ cs := fun hh => h (List.mem_cons_of_mem _ hh)
    simp only [List.cons_append, takeLine, if_neg hc, List.append_eq, ih hcs]

theorem readLineCRLF_append (hd rest : List Char) (h : '\n' ∉ hd) :
    readLineCRLF (hd ++ '\r' :: '\n' :: rest) = .ok (hd, rest) := by
  have hlen : (hd ++ ['\r', '\n']).length = hd.length + 2 := by simp
  have h1 : ¬ (hd ++ ['\r', '\n']).length < 2 := by omega
  have h2 : (hd ++ ['\r', '\n']).length - 2 = hd.length := by omega
  have h3 : (hd ++ ['\r', '\n']).get? hd.length = some '\r' := by
    rw [List.get?_append_right (Nat.le_refl _)]
    simp
  have h4 : (hd ++ ['\r', '\n']).take hd.length = hd := by
    simpa using List.take_left hd ['\r', '\n']
  simp only [readLineCRLF, takeLine_append hd rest h, h2, if_neg h1, h3, h4,
    if_true]

/-- C6: in array mode, an element whose header line does not start with
`$` is rejected as a framing error; a bulk payload whose bytes at the
declared position `L` are not CRLF is rejected as a framing error; when
they are CRLF, exactly the first `L` payload bytes are consumed as the
element.  The rejection propagates through `readRespArray`, which then
produces no command. -/
theorem claim_c6 :
    (∀ (c : Char) (cs body : List Char), '\n' ∉ c :: cs → c ≠ '$' →
      readOneBulk ((c :: cs) ++ '\r' :: '\n' :: body)
        = ResR.err "expected bulk string")
    ∧ (∀ (ds body : List Char) (L : Int), '\n' ∉ ds →
      atoiChars ds = Except.ok L → 0 ≤ L → L.toNat + 2 ≤ body.length →
      (body.take (L.toNat + 2)).drop L.toNat ≠ ['\r', '\n'] →
      readOneBulk (('$' :: ds) ++ '\r' :: '\n' :: body)
        = ResR.err "bulk string does not end with CRLF")
    ∧ (∀ (ds body : List Char) (L : Int), '\n' ∉ ds →
      atoiChars ds = Except.ok L → 0 ≤ L → L.toNat + 2 ≤ body.length →
      (body.take (L.toNat + 2)).drop L.toNat = ['\r', '\n'] →
      readOneBulk (('$' :: ds) ++ '\r' :: '\n' :: body)
        = ResR.ok (String.mk (body.take L.toNat), body.drop (L.toNat + 2)))
    ∧ (∀ (c : Char) (cs body : List Char), '\n' ∉ c :: cs → c ≠ '$' →
      readRespArray
          ('*' :: '1' :: '\r' :: '\n' :: ((c :: cs) ++ '\r' :: '\n' :: body))
        = ResR.err "expected bulk string") := by
  have partA : ∀ (c : Char) (cs body : List Char), '\n' ∉ c :: cs → c ≠ '$' →
      readOneBulk ((c :: cs) ++ '\r' :: '\n' :: body)
        = ResR.err "expected bulk string" := by
    intro c cs body hn hc
    have hl : readLineCRLF (c :: (cs ++ '\r' :: '\n' :: body))
        = Except.ok (c :: cs, body) := readLineCRLF_append (c :: cs) body hn
    simp [readOneBulk, hl, hc]
  have hdollar : ∀ ds : List Char, '\n' ∉ ds → '\n' ∉ '$' :: ds := by
    intro ds hn hmem
    rcases List.mem_cons.mp hmem with h1 | h1
    · exact absurd h1.symm (by decide)
    · exact hn h1
  refine ⟨partA, ?_, ?_, ?_⟩
  · intro ds body L hn hat hL0 hlen hbad
    have hneg : ¬ L < 0 := by omega
    have hrl : ¬ body.length < L.toNat + 2 := by omega
    have hl : readLineCRLF ('$' :: (ds ++ '\r' :: '\n' :: body))
        = Except.ok ('$' :: ds, body) :=
      readLineCRLF_append ('$' :: ds) body (hdollar ds hn)
    simp [readOneBulk, hl, hat, hneg, hrl, hbad]
  · intro ds body L hn hat hL0 hlen hgood
    have hneg : ¬ L < 0 := by omega
    have hrl : ¬ body.length < L.toNat + 2 := by omega
    have htt : (body.take (L.toNat + 2)).take L.toNat = body.take L.toNat := by
      rw [List.take_take]
      congr 1
      exact min_eq_left (by omega)
    have hl : readLineCRLF ('$' :: (ds ++ '\r' :: '\n' :: body))
        = Except.ok ('$' :: ds, body) :=
      readLineCRLF_append ('$' :: ds) body (hdollar ds hn)
    simp [readOneBulk, hl, hat, hneg, hrl, hgood, htt]
  · intro c cs body hn hc
    have hA2 : readOneBulk (c :: (cs ++ '\r' :: '\n' :: body))
        = ResR.err "expected bulk string" := partA c cs body hn hc
    have hl2 : readLineCRLF
        ('*' :: '1' :: '\r' :: '\n' :: c :: (cs ++ '\r' :: '\n' :: body))
        = Except.ok (['*', '1'], c :: (cs ++ '\r' :: '\n' :: body)) :=
      readLineCRLF_append ['*', '1'] ((c :: cs) ++ '\r' :: '\n' :: body)
        (by decide)
    have hat1 : atoiChars ['1'] = Except.ok 1 := rfl
    have hre : readElements (c :: (cs ++ '\r' :: '\n' :: body)) [] 1
        = ResR.err "expected bulk string" := by
      simp [readElements, hA2]
    simp [readRespArray, hl2, hat1, hre]

/-- Witness for C6: a non-`$` element header, a payload whose declared
end is not CRLF, a well-formed element, and the array-level rejection,
all at concrete inputs. -/
theorem claim_c6_witness :
    readOneBulk ['X', '\r', '\n'] = ResR.err "expected bulk string"
    ∧ readOneBulk ['$', '1', '\r', '\n', 'a', 'b', 'c']
      = ResR.err "bulk string does not end with CRLF"
    ∧ readOneBulk ['$', '1', '\r', '\n', 'a', '\r', '\n']
      = ResR.ok ("a", ([] : List Char))
    ∧ readRespArray ['*', '1', '\r', '\n', 'X', '\r', '\n']
      = ResR.err "expected bulk string" :=
  ⟨claim_c6.1 'X' [] [] (by decide) (by decide),
   claim_c6.2.1 ['1'] ['a', 'b', 'c'] 1 (by decide) rfl (by decide)
     (by decide) (by decide),
   claim_c6.2.2.1 ['1'] ['a', '\r', '\n'] 1 (by decide) rfl (by decide)
     (by decide) (by decide),
   claim_c6.2.2.2 'X' [] [] (by decide) (by decide)⟩

/-- C9: the well-formed-prefix input `*1\r\n\r\n` — an array frame whose
element header line is empty — drives the decoder into `line[0]` on an
empty string: a runtime abort, neither a command nor a framing error. -/
theorem claim_c9 :
    readRespArray ['*', '1', '\r', '\n', '\r', '\n']
      = ResR.crash "index out of range" := by
  rfl

/-- C10: the input `*-1\r\n` passes the numeric parse with count -1 and
then aborts on the negative slice capacity of `make([]string, 0, count)`:
neither an empty command nor a framing error. -/
theorem claim_c10 :
    readRespArray ['*', '-', '1', '\r', '\n']
      = ResR.crash "makeslice: cap out of range" := by
  rfl
